import Mathlib

/-!
Verification development for the TalkNet backend.

The repository's visible surface is the Express application shell
(`src/app.js`, `src/routes/home.route.js`) plus deployment files; the
real-time core (socket lifecycle handlers, message controllers, the
`avoidInProduction` middleware body) lives in files not present under
`src/`.  Claims about the real-time subsystem are therefore settled
against definitions modelled from the specification's contracts
(sections 4-7 of the spec); claims about the operational endpoints are
settled against an embedding of `src/app.js`.
-/

namespace TalkNet

/-- User identities, chat identities and connection identities are opaque
stable identifiers; we embed them as natural numbers. -/
abbrev UserId := Nat
abbrev ChatId := Nat
abbrev ConnId := Nat

/-- Event kinds carried over the real-time channel (spec section 3,
Delivered Event). -/
inductive EventKind where
  | messageCreated
  | messageEdited
  | messageDeleted
  | typingStarted
  | typingStopped
  | participantAdded
  | participantRemoved
deriving DecidableEq, Repr

/-- An in-flight delivered event: chat identity, event kind, payload,
origin user identity (spec section 3). -/
structure Event where
  chat : ChatId
  kind : EventKind
  payload : String
  origin : UserId
deriving DecidableEq, Repr

/-- A persisted message record (document-store collaborator result of
insertMessage). -/
structure Msg where
  chat : ChatId
  author : UserId
  content : String
deriving DecidableEq, Repr

/-- A live connection handle: its identity and owning user identity
(spec section 3, Connection Handle). -/
structure Conn where
  id : ConnId
  user : UserId
deriving DecidableEq, Repr

/-- Modelled from the spec: the mutable state of the real-time core
(the socket module is not under src/).  `registry` is the Connection
Registry (ordered list of live connection handles); `subs` is the union
of all Chat Groups' subscriber sets, as (connection, chat) pairs. -/
structure ServerState where
  registry : List Conn
  subs : List (ConnId × ChatId)
deriving DecidableEq, Repr

/-- Modelled from the spec: the document-store collaborator, as consumed
by the core (the store module is not under src/).  `chats` maps a chat
identity to its current participant list; `storageOk` models whether a
write (insertMessage) succeeds or fails with StorageError. -/
structure Store where
  chats : List (ChatId × List UserId)
  storageOk : Bool
deriving DecidableEq, Repr

/-- Error taxonomy of the spec (section 7). -/
inductive ApiErr where
  | unauthenticated
  | forbidden
  | notFound
  | storageError
deriving DecidableEq, Repr

/-- Modelled from the spec: `participantsOf(chatId)` queries the
document store for the chat's current participant list; fails with
NotFound (here: `none`) if the chat no longer exists (spec 4.3). -/
def participantsOf (store : Store) (chatId : ChatId) : Option (List UserId) :=
  (store.chats.find? (fun p => p.1 = chatId)).map (fun p => p.2)

/-- Connection Registry lookup: `connectionsFor(userId)` is the ordered
sequence of currently-live connection handles of that user (spec 4.2). -/
def connectionsFor (st : ServerState) (u : UserId) : List Conn :=
  st.registry.filter (fun c => c.user = u)

/-- Modelled from the spec: `onJoinChat(connectionId, chatId)`
re-resolves the Participant Set for chatId from the store, fails with
Forbidden if the owning user is not currently a member, and otherwise
adds the connection to the Chat Group's subscriber set, idempotently
(spec 4.1; the socket lifecycle module is not under src/). -/
def onJoinChat (store : Store) (st : ServerState) (connId : ConnId)
    (chatId : ChatId) : Except ApiErr ServerState :=
  match st.registry.find? (fun c => c.id = connId) with
  | none => .error .unauthenticated
  | some c =>
    match participantsOf store chatId with
    | none => .error .notFound
    | some ps =>
      if c.user ∈ ps then
        .ok { st with subs :=
          if (connId, chatId) ∈ st.subs then st.subs
          else st.subs ++ [(connId, chatId)] }
      else .error .forbidden

/-- Modelled from the spec: `onLeaveChat(connectionId, chatId)` removes
the subscription; idempotent (spec 4.1). -/
def onLeaveChat (st : ServerState) (connId : ConnId) (chatId : ChatId) :
    ServerState :=
  { st with subs := st.subs.filter (fun p => p ≠ (connId, chatId)) }

/-- Modelled from the spec: `onDisconnect(connectionId)` removes the
handle from every Chat Group it subscribed to and from the Registry;
safe to invoke more than once (spec 4.1). -/
def onDisconnect (st : ServerState) (connId : ConnId) : ServerState :=
  { registry := st.registry.filter (fun c => c.id ≠ connId),
    subs := st.subs.filter (fun p => p.1 ≠ connId) }

/-- Recipient resolution for fan-out (spec 4.4 steps 1-2): resolve the
Participant Set fresh from the store, then for each participant resolve
live connection handles via the Registry.  A chat that no longer exists
yields no recipients. -/
def recipientsOf (store : Store) (st : ServerState) (chatId : ChatId) :
    List ConnId :=
  match participantsOf store chatId with
  | none => []
  | some ps => ps.flatMap (fun u => (connectionsFor st u).map (fun c => c.id))

/-- Modelled from the spec: `publish(chatId, eventKind, payload,
originUserId)` (spec 4.4; the Event Router module is not under src/).
`failing` is the set of connections whose transport-level send fails.
Delivery is fire-and-forget per connection: a failing recipient receives
nothing and is torn down via the disconnect path; the other recipients
still receive the event, and no error is surfaced (the result type
carries none).  Returns the post-teardown state and the delivery list. -/
def publish (store : Store) (st : ServerState) (ev : Event)
    (failing : List ConnId) : ServerState × List (ConnId × Event) :=
  let recips := recipientsOf store st ev.chat
  ((recips.filter (fun c => c ∈ failing)).foldl (fun s c => onDisconnect s c) st,
   (recips.filter (fun c => c ∉ failing)).map (fun c => (c, ev)))

/-- One fan-out action of the Ingestion Pipeline trace: the persistence
step completing, or one event delivered to one connection. -/
inductive Action where
  | persist (m : Msg)
  | deliver (connId : ConnId) (ev : Event)
deriving DecidableEq, Repr

/-- Modelled from the spec: `createMessage(chatId, authorId, content)`
(spec 4.5; the message controller is not under src/).  Validates the
author is a current participant (Forbidden otherwise), persists via the
store (StorageError aborts with no broadcast), and only then publishes
message-created.  The third component is the observable trace of
persistence and delivery actions, in execution order. -/
def createMessage (store : Store) (st : ServerState) (failing : List ConnId)
    (chatId : ChatId) (authorId : UserId) (content : String) :
    Except ApiErr Msg × ServerState × List Action :=
  match participantsOf store chatId with
  | none => (.error .notFound, st, [])
  | some ps =>
    if authorId ∈ ps then
      if store.storageOk then
        let m : Msg := ⟨chatId, authorId, content⟩
        let ev : Event := ⟨chatId, .messageCreated, content, authorId⟩
        let out := publish store st ev failing
        (.ok m, out.1, .persist m :: out.2.map (fun d => .deliver d.1 d.2))
      else (.error .storageError, st, [])
    else (.error .forbidden, st, [])

/-- One step of a sequence of publish calls: publish the event from the
current state (no send failures in this scenario) and append its
deliveries, in order, to those already made. -/
def publishStep (store : Store)
    (acc : ServerState × List (ConnId × Event)) (ev : Event) :
    ServerState × List (ConnId × Event) :=
  let out := publish store acc.1 ev []
  (out.1, acc.2 ++ out.2)

/-- A sequence of publish calls (events of one persistence transaction),
applied in order; deliveries accumulate in call order (spec 4.4,
ordering guarantee). -/
def publishSeq (store : Store) (st : ServerState) (evs : List Event) :
    ServerState × List (ConnId × Event) :=
  evs.foldl (publishStep store) (st, [])

/-- The ordered list of events a given connection received out of a
delivery list. -/
def inbox (ds : List (ConnId × Event)) (c : ConnId) : List Event :=
  (ds.filter (fun d => d.1 = c)).map (fun d => d.2)

/-- A join or leave intent on one (connection, chat) pair. -/
inductive JL where
  | join
  | leave
deriving DecidableEq, Repr

/-- Applying one join/leave call on a fixed (connection, chat) pair: a
join that fails (Forbidden / NotFound / unknown connection) leaves the
state unchanged. -/
def applyJL (store : Store) (connId : ConnId) (chatId : ChatId)
    (st : ServerState) : JL → ServerState
  | .join =>
    match onJoinChat store st connId chatId with
    | .ok s => s
    | .error _ => st
  | .leave => onLeaveChat st connId chatId

/-- Running a finite sequence of join/leave calls on the same
(connection, chat) pair. -/
def runJL (store : Store) (connId : ConnId) (chatId : ChatId)
    (st : ServerState) (ops : List JL) : ServerState :=
  ops.foldl (applyJL store connId chatId) st

/-! Embedding of the operational endpoints of `src/app.js` (seeding and
the danger-zone reset endpoint) and their middleware chains. -/

/-- Middlewares and terminal handlers appearing in the destructive
routes registered in `src/app.js` (lines 122-132). -/
inductive Middleware where
  | avoidInProd
  | getGeneratedCredentials
  | seedUsers
  | seedChatApp
  | resetDbHandler
deriving DecidableEq, Repr

/-- Modelled from the spec: the body of the `avoidInProduction`
middleware is not under src/ (only its import and registrations in
`src/app.js` are); per the spec's design note, it gates its route behind
an explicit non-production flag, i.e. it rejects the request exactly
when the environment is production.  No other middleware in these chains
rejects. -/
def rejects (isProduction : Bool) : Middleware → Bool
  | .avoidInProd => isProduction
  | _ => false

/-- Express chain semantics: middlewares run in registration order; a
rejecting middleware runs (its guard executes) but stops the chain, so
nothing after it runs. -/
def chainRuns (isProduction : Bool) : List Middleware → List Middleware
  | [] => []
  | m :: rest =>
    if rejects isProduction m then [m]
    else m :: chainRuns isProduction rest

/-- One registered route: HTTP method, path, and its middleware chain in
registration order (terminal handler last). -/
structure Route where
  method : String
  path : String
  chain : List Middleware
deriving DecidableEq, Repr

/-- The destructive operational routes exactly as registered in
`src/app.js`: the two seeding endpoints (lines 122-127) and the reset-db
endpoint (line 132), each with `avoidInProduction` first. -/
def destructiveRoutes : List Route :=
  [⟨"GET", "/api/v1/seed/generated-credentials",
      [.avoidInProd, .getGeneratedCredentials]⟩,
   ⟨"POST", "/api/v1/seed/chat-app",
      [.avoidInProd, .seedUsers, .seedChatApp]⟩,
   ⟨"DELETE", "/api/v1/reset-db",
      [.avoidInProd, .resetDbHandler]⟩]

/-- A route is safely guarded when `avoidInProduction` is its first
middleware and, in a production environment, its terminal handler body
is not among the middlewares that run. -/
def guardedUnreachable (r : Route) : Bool :=
  decide (r.chain.head? = some Middleware.avoidInProd) &&
  !((chainRuns true r.chain).contains
      (r.chain.getLastD Middleware.avoidInProd))

/-! Embedding of the reset-db handler's filesystem cleanup
(`src/app.js` lines 139-159). -/

/-- The directory the image-cleanup loop reads, from `src/app.js` line
139. -/
def imagesDirectory : String := "./public/images"

/-- The seeded-credentials file the handler unlinks, from `src/app.js`
line 156. -/
def seedCredentialsPath : String := "./public/temp/seed-credentials.json"

/-- Joining a directory and a file name, as `path.join(directory, file)`
does in the handler. -/
def pathJoin (d f : String) : String := d ++ "/" ++ f

/-- The paths unlinked by the image-cleanup loop of the reset-db
handler: it iterates the files listed in `./public/images`, skips the
one named ".gitkeep" via `continue`, and unlinks every other one
(`src/app.js` lines 147-152). -/
def imageCleanupUnlinks (files : List String) : List String :=
  (files.filter (fun f => f ≠ ".gitkeep")).map (fun f => pathJoin imagesDirectory f)

/-- Every path the reset-db handler's filesystem cleanup touches: the
image-cleanup unlinks plus the seed-credentials file (`src/app.js`
lines 139-159). -/
def resetDbTouchedPaths (files : List String) : List String :=
  imageCleanupUnlinks files ++ [seedCredentialsPath]

/-- Number of delivery actions for a given connection in a trace. -/
def deliveredCount (trace : List Action) (connId : ConnId) : Nat :=
  trace.countP (fun a => match a with
    | .deliver c _ => c == connId
    | _ => false)

/-! Helper lemmas. -/

lemma registry_id_inj {st : ServerState} (h : (st.registry.map Conn.id).Nodup)
    {c₁ c₂ : Conn} (h₁ : c₁ ∈ st.registry) (h₂ : c₂ ∈ st.registry)
    (hid : c₁.id = c₂.id) : c₁ = c₂ :=
  List.inj_on_of_nodup_map h h₁ h₂ hid

lemma count_connectionsFor_ids {st : ServerState}
    (hreg : (st.registry.map Conn.id).Nodup) {conn : Conn}
    (hconn : conn ∈ st.registry) (u : UserId) :
    ((connectionsFor st u).map (fun c => c.id)).count conn.id
      = if conn.user = u then 1 else 0 := by
  have hsub : ((connectionsFor st u).map (fun c => c.id)).Sublist
      (st.registry.map Conn.id) := by
    exact (List.filter_sublist st.registry).map _
  have hnd : ((connectionsFor st u).map (fun c => c.id)).Nodup :=
    hreg.sublist hsub
  rw [List.count_eq_of_nodup hnd]
  have hiff : conn.id ∈ (connectionsFor st u).map (fun c => c.id)
      ↔ conn.user = u := by
    constructor
    · intro hmem
      simp only [connectionsFor, List.mem_map, List.mem_filter] at hmem
      obtain ⟨c, ⟨hcr, hcu⟩, hcid⟩ := hmem
      have : c = conn := registry_id_inj hreg hcr hconn hcid
      subst this
      exact of_decide_eq_true hcu
    · intro hcu
      simp only [connectionsFor, List.mem_map, List.mem_filter]
      exact ⟨conn, ⟨hconn, by simp [hcu]⟩, rfl⟩
  simp [hiff]

lemma count_flatMap_sum {α : Type} (g : α → List ConnId) (x : ConnId) :
    ∀ l : List α, (l.flatMap g).count x = (l.map (fun a => (g a).count x)).sum := by
  intro l
  induction l with
  | nil => rfl
  | cons a l ih => simp [List.count_append, ih]

lemma sum_map_ite_count (v : UserId) (ps : List UserId) :
    (ps.map (fun u => if v = u then 1 else 0)).sum = ps.count v := by
  induction ps with
  | nil => rfl
  | cons u ps ih =>
    simp only [List.map_cons, List.sum_cons, ih, List.count_cons, beq_iff_eq]
    by_cases h : v = u
    · simp only [h, if_pos rfl]
      omega
    · simp [h, show ¬u = v from fun hh => h hh.symm]

lemma count_recipientsOf {store : Store} {st : ServerState} {chatId : ChatId}
    {ps : List UserId} (hps : participantsOf store chatId = some ps)
    (hnodupPs : ps.Nodup) (hreg : (st.registry.map Conn.id).Nodup)
    {conn : Conn} (hconn : conn ∈ st.registry) :
    (recipientsOf store st chatId).count conn.id
      = if conn.user ∈ ps then 1 else 0 := by
  simp only [recipientsOf, hps]
  rw [count_flatMap_sum]
  have hmapeq : ps.map (fun u => ((connectionsFor st u).map (fun c => c.id)).count conn.id)
      = ps.map (fun u => if conn.user = u then 1 else 0) :=
    List.map_congr_left (fun u _ => count_connectionsFor_ids hreg hconn u)
  rw [hmapeq, sum_map_ite_count, List.count_eq_of_nodup hnodupPs]

lemma mem_recipientsOf {store : Store} {st : ServerState} {chatId : ChatId}
    {ps : List UserId} (hps : participantsOf store chatId = some ps)
    {x : ConnId} :
    x ∈ recipientsOf store st chatId ↔
      ∃ conn, conn ∈ st.registry ∧ conn.user ∈ ps ∧ conn.id = x := by
  simp only [recipientsOf, hps, List.mem_flatMap, List.mem_map, connectionsFor,
    List.mem_filter]
  constructor
  · rintro ⟨u, hu, c, ⟨hcr, hcu⟩, hcx⟩
    exact ⟨c, hcr, by rwa [of_decide_eq_true hcu], hcx⟩
  · rintro ⟨c, hcr, hcu, hcx⟩
    exact ⟨c.user, hcu, c, ⟨hcr, by simp⟩, hcx⟩

lemma deliveredCount_cons_persist (m : Msg) (t : List Action) (x : ConnId) :
    deliveredCount (.persist m :: t) x = deliveredCount t x := by
  simp [deliveredCount]

lemma deliveredCount_map_deliver (l : List ConnId) (ev : Event) (x : ConnId) :
    deliveredCount (l.map (fun c => .deliver c ev)) x = l.count x := by
  simp only [deliveredCount, List.countP_map]
  rfl

lemma pathJoin_right_inj {d a b : String} (h : pathJoin d a = pathJoin d b) :
    a = b := by
  unfold pathJoin at h
  have hd : (d ++ "/" ++ a).data = (d ++ "/" ++ b).data := by rw [h]
  simp only [String.data_append, List.append_assoc, List.append_cancel_left_eq] at hd
  exact String.ext hd

/-! Claim theorems. -/

/-- C8: invoking `onDisconnect` twice on the same connection handle
produces the same end state (registry contents and all chat-group
subscriber sets) as invoking it once. -/
theorem onDisconnect_idempotent (st : ServerState) (connId : ConnId) :
    onDisconnect (onDisconnect st connId) connId = onDisconnect st connId := by
  simp [onDisconnect, List.filter_filter]

/-- C9: every destructive operational endpoint of `src/app.js` (the two
seeding endpoints and the reset-db endpoint) has `avoidInProduction` as
a preceding middleware, the guard rejects requests in a production
environment, and in production the destructive handler body is
unreachable. -/
theorem destructive_routes_guarded :
    destructiveRoutes.all guardedUnreachable = true
    ∧ rejects true Middleware.avoidInProd = true := by
  decide

/-- C10: the reset-db handler's image cleanup never unlinks the
".gitkeep" file in ./public/images, unlinks every other file listed in
that directory, and its filesystem cleanup touches no path outside
./public/images and ./public/temp/seed-credentials.json. -/
theorem resetDb_cleanup_frame (files : List String) :
    pathJoin imagesDirectory ".gitkeep" ∉ imageCleanupUnlinks files
    ∧ (∀ f, f ∈ files → f ≠ ".gitkeep" →
        pathJoin imagesDirectory f ∈ imageCleanupUnlinks files)
    ∧ (∀ p, p ∈ resetDbTouchedPaths files →
        p = seedCredentialsPath ∨
        ∃ f, f ∈ files ∧ f ≠ ".gitkeep" ∧ p = pathJoin imagesDirectory f) := by
  refine ⟨?_, ?_, ?_⟩
  · intro hmem
    simp only [imageCleanupUnlinks, List.mem_map, List.mem_filter] at hmem
    obtain ⟨f, ⟨hf, hne⟩, heq⟩ := hmem
    have : f = ".gitkeep" := pathJoin_right_inj heq
    simp [this] at hne
  · intro f hf hne
    simp only [imageCleanupUnlinks, List.mem_map, List.mem_filter]
    exact ⟨f, ⟨hf, by simpa using hne⟩, rfl⟩
  · intro p hp
    simp only [resetDbTouchedPaths, List.mem_append, List.mem_singleton] at hp
    rcases hp with hp | hp
    · right
      simp only [imageCleanupUnlinks, List.mem_map, List.mem_filter] at hp
      obtain ⟨f, ⟨hf, hne⟩, heq⟩ := hp
      exact ⟨f, hf, by simpa using hne, heq.symm⟩
    · exact Or.inl hp

/-- C10 witness: concrete instance with a directory listing containing
one image and the ".gitkeep" marker. -/
theorem resetDb_cleanup_frame_witness :
    pathJoin imagesDirectory ".gitkeep" ∉ imageCleanupUnlinks ["pic.png", ".gitkeep"]
    ∧ pathJoin imagesDirectory "pic.png" ∈ imageCleanupUnlinks ["pic.png", ".gitkeep"] :=
  ⟨(resetDb_cleanup_frame ["pic.png", ".gitkeep"]).1,
   (resetDb_cleanup_frame ["pic.png", ".gitkeep"]).2.1 "pic.png" (by simp) (by simp)⟩

/-- C1: in every `createMessage` call, no delivery action precedes the
persistence action in the observable trace, and if the persistence step
fails then the trace is empty (publish is never invoked, no connection
receives any event, and the state is unchanged). -/
theorem createMessage_persist_before_broadcast
    (store : Store) (st : ServerState) (failing : List ConnId)
    (chatId : ChatId) (authorId : UserId) (content : String) :
    (store.storageOk = false →
      (createMessage store st failing chatId authorId content).2.2 = []
      ∧ (createMessage store st failing chatId authorId content).2.1 = st)
    ∧ (∀ (i : Nat) (c : ConnId) (ev : Event),
        (createMessage store st failing chatId authorId content).2.2.get? i
          = some (.deliver c ev) →
        ∃ (j : Nat) (m : Msg), j < i ∧
          (createMessage store st failing chatId authorId content).2.2.get? j
            = some (.persist m)) := by
  rcases hps : participantsOf store chatId with _ | ps
  · refine ⟨fun _ => by simp [createMessage, hps], ?_⟩
    intro i c ev hdel
    simp [createMessage, hps] at hdel
  · by_cases hauthor : authorId ∈ ps
    · rcases hok : store.storageOk with _ | _
      · refine ⟨fun _ => by simp [createMessage, hps, hauthor, hok], ?_⟩
        intro i c ev hdel
        simp [createMessage, hps, hauthor, hok] at hdel
      · refine ⟨fun hcontr => by simp [hok] at hcontr, ?_⟩
        intro i c ev hdel
        refine ⟨0, ⟨chatId, authorId, content⟩, ?_, ?_⟩
        · rcases i with _ | i
          · exfalso
            simp [createMessage, hps, hauthor, hok] at hdel
          · exact Nat.succ_pos i
        · simp [createMessage, hps, hauthor, hok]
    · refine ⟨fun _ => by simp [createMessage, hps, hauthor], ?_⟩
      intro i c ev hdel
      simp [createMessage, hps, hauthor] at hdel

/-- C1 witness: with a store whose write fails, a concrete
`createMessage` call produces an empty trace and leaves the state
unchanged. -/
theorem createMessage_persist_before_broadcast_witness :
    (createMessage ⟨[(1, [10])], false⟩ ⟨[⟨100, 10⟩], []⟩ [] 1 10 "hi").2.2 = []
    ∧ (createMessage ⟨[(1, [10])], false⟩ ⟨[⟨100, 10⟩], []⟩ [] 1 10 "hi").2.1
        = ⟨[⟨100, 10⟩], []⟩ :=
  (createMessage_persist_before_broadcast ⟨[(1, [10])], false⟩ ⟨[⟨100, 10⟩], []⟩
    [] 1 10 "hi").1 rfl

/-- C2: if `createMessage` succeeds, every live connection of every
then-current participant receives exactly one message-created event for
that message, every delivered event carries the message's chat, content
and author, and deliveries go only to connections of current
participants. -/
theorem createMessage_delivers_exactly_once
    (store : Store) (st : ServerState) (chatId : ChatId) (authorId : UserId)
    (content : String) (ps : List UserId) (m : Msg)
    (hps : participantsOf store chatId = some ps)
    (hnodupPs : ps.Nodup) (hreg : (st.registry.map Conn.id).Nodup)
    (hsucc : (createMessage store st [] chatId authorId content).1 = .ok m) :
    (∀ conn, conn ∈ st.registry →
      deliveredCount (createMessage store st [] chatId authorId content).2.2 conn.id
        = if conn.user ∈ ps then 1 else 0)
    ∧ (∀ c ev, Action.deliver c ev
          ∈ (createMessage store st [] chatId authorId content).2.2 →
        ev = ⟨chatId, .messageCreated, content, authorId⟩
        ∧ ∃ conn, conn ∈ st.registry ∧ conn.id = c ∧ conn.user ∈ ps) := by
  by_cases hauthor : authorId ∈ ps
  · rcases hok : store.storageOk with _ | _
    · simp [createMessage, hps, hauthor, hok] at hsucc
    · have htrace : (createMessage store st [] chatId authorId content).2.2
          = .persist ⟨chatId, authorId, content⟩ ::
            (recipientsOf store st chatId).map
              (fun c => Action.deliver c ⟨chatId, .messageCreated, content, authorId⟩) := by
        simp [createMessage, hps, hauthor, hok, publish, List.map_map]
      constructor
      · intro conn hconn
        rw [htrace, deliveredCount_cons_persist, deliveredCount_map_deliver,
          count_recipientsOf hps hnodupPs hreg hconn]
      · intro c ev hmem
        rw [htrace] at hmem
        simp only [List.mem_cons, List.mem_map] at hmem
        rcases hmem with hmem | ⟨cc, hcc, heq⟩
        · exact absurd hmem (by simp)
        · obtain ⟨hc, hev⟩ : cc = c ∧
              (⟨chatId, .messageCreated, content, authorId⟩ : Event) = ev := by
            injection heq with h1 h2
            exact ⟨h1, h2⟩
          subst hc
          obtain ⟨conn, hconn, hcu, hcid⟩ := (mem_recipientsOf hps).mp hcc
          exact ⟨hev.symm, conn, hconn, hcid, hcu⟩
  · simp [createMessage, hps, hauthor] at hsucc

/-- C2 witness: the spec's scenario — users 10 (A) and 20 (B) are
participants of chat 1 with live connections 100 and 200, user 30 (C) is
not a participant and holds connection 300; after
createMessage(1, 10, "hi"), connections 100 and 200 each receive exactly
one event and connection 300 receives none. -/
theorem createMessage_delivers_exactly_once_witness :
    deliveredCount (createMessage ⟨[(1, [10, 20])], true⟩
      ⟨[⟨100, 10⟩, ⟨200, 20⟩, ⟨300, 30⟩], []⟩ [] 1 10 "hi").2.2 100 = 1
    ∧ deliveredCount (createMessage ⟨[(1, [10, 20])], true⟩
      ⟨[⟨100, 10⟩, ⟨200, 20⟩, ⟨300, 30⟩], []⟩ [] 1 10 "hi").2.2 200 = 1
    ∧ deliveredCount (createMessage ⟨[(1, [10, 20])], true⟩
      ⟨[⟨100, 10⟩, ⟨200, 20⟩, ⟨300, 30⟩], []⟩ [] 1 10 "hi").2.2 300 = 0 := by
  have h := createMessage_delivers_exactly_once ⟨[(1, [10, 20])], true⟩
    ⟨[⟨100, 10⟩, ⟨200, 20⟩, ⟨300, 30⟩], []⟩ 1 10 "hi" [10, 20] ⟨1, 10, "hi"⟩
    rfl (by decide) (by decide) rfl
  refine ⟨?_, ?_, ?_⟩
  · have := h.1 ⟨100, 10⟩ (by decide)
    simpa using this
  · have := h.1 ⟨200, 20⟩ (by decide)
    simpa using this
  · have := h.1 ⟨300, 30⟩ (by decide)
    simpa using this

/-- C4: the participant set is resolved fresh at fan-out, so a user not
in the current participant list of the chat — even one removed after
having joined — has none of their connections receive any delivery from
a subsequent `createMessage` on that chat. -/
theorem fanout_excludes_removed_participant
    (store : Store) (st : ServerState) (failing : List ConnId)
    (chatId : ChatId) (authorId : UserId) (content : String)
    (ps : List UserId) (u : UserId)
    (hps : participantsOf store chatId = some ps)
    (hreg : (st.registry.map Conn.id).Nodup)
    (hu : u ∉ ps) :
    ∀ conn, conn ∈ st.registry → conn.user = u →
      deliveredCount
        (createMessage store st failing chatId authorId content).2.2 conn.id = 0 := by
  intro conn hconn hcu
  by_cases hauthor : authorId ∈ ps
  · rcases hok : store.storageOk with _ | _
    · simp [createMessage, hps, hauthor, hok, deliveredCount]
    · have htrace : (createMessage store st failing chatId authorId content).2.2
          = .persist ⟨chatId, authorId, content⟩ ::
            ((recipientsOf store st chatId).filter (fun c => c ∉ failing)).map
              (fun c => Action.deliver c ⟨chatId, .messageCreated, content, authorId⟩) := by
        simp [createMessage, hps, hauthor, hok, publish, List.map_map]
      rw [htrace, deliveredCount_cons_persist, deliveredCount_map_deliver]
      rw [List.count_eq_zero]
      intro hmem
      have hrec : conn.id ∈ recipientsOf store st chatId :=
        List.mem_of_mem_filter hmem
      obtain ⟨conn2, hconn2, hcu2, hcid⟩ := (mem_recipientsOf hps).mp hrec
      have : conn2 = conn := registry_id_inj hreg hconn2 hconn hcid
      subst this
      rw [hcu] at hcu2
      exact hu hcu2
  · simp [createMessage, hps, hauthor, deliveredCount]

/-- C4 witness: the spec's scenario — user 20 (B) was removed from chat
1's participant list (now [10]); createMessage(1, 10, "bye") delivers
nothing to B's connection 200. -/
theorem fanout_excludes_removed_participant_witness :
    deliveredCount (createMessage ⟨[(1, [10])], true⟩
      ⟨[⟨100, 10⟩, ⟨200, 20⟩], []⟩ [] 1 10 "bye").2.2 200 = 0 :=
  fanout_excludes_removed_participant ⟨[(1, [10])], true⟩
    ⟨[⟨100, 10⟩, ⟨200, 20⟩], []⟩ [] 1 10 "bye" [10] 20 rfl (by decide)
    (by decide) ⟨200, 20⟩ (by decide) rfl

/-- C3: if the connection's owning user is not in the freshly resolved
participant set of the chat, `onJoinChat` fails with Forbidden, the
subscription state is unchanged, and the join decision is a function of
the participant set resolved from the store at call time (two stores
that currently agree on the chat's participants yield the same
outcome). -/
theorem onJoinChat_forbidden_fresh
    (store : Store) (st : ServerState) (connId : ConnId) (chatId : ChatId)
    (conn : Conn) (ps : List UserId)
    (hconn : st.registry.find? (fun c => c.id = connId) = some conn)
    (hps : participantsOf store chatId = some ps)
    (hnot : conn.user ∉ ps) :
    onJoinChat store st connId chatId = .error .forbidden
    ∧ applyJL store connId chatId st .join = st
    ∧ (∀ store2 : Store,
        participantsOf store2 chatId = participantsOf store chatId →
        onJoinChat store2 st connId chatId = onJoinChat store st connId chatId) := by
  have h1 : onJoinChat store st connId chatId = .error .forbidden := by
    simp [onJoinChat, hconn, hps, hnot]
  refine ⟨h1, ?_, ?_⟩
  · simp [applyJL, h1]
  · intro store2 heq
    simp only [onJoinChat, hconn, heq]

/-- C3 witness: user 20 is not a participant of chat 1 (participants
[10]); joining from their connection 200 is rejected with Forbidden and
the state is unchanged. -/
theorem onJoinChat_forbidden_fresh_witness :
    onJoinChat ⟨[(1, [10])], true⟩ ⟨[⟨200, 20⟩], []⟩ 200 1
        = .error .forbidden
    ∧ applyJL ⟨[(1, [10])], true⟩ 200 1 ⟨[⟨200, 20⟩], []⟩ .join
        = ⟨[⟨200, 20⟩], []⟩ :=
  ⟨(onJoinChat_forbidden_fresh ⟨[(1, [10])], true⟩ ⟨[⟨200, 20⟩], []⟩ 200 1
      ⟨200, 20⟩ [10] rfl rfl (by decide)).1,
   (onJoinChat_forbidden_fresh ⟨[(1, [10])], true⟩ ⟨[⟨200, 20⟩], []⟩ 200 1
      ⟨200, 20⟩ [10] rfl rfl (by decide)).2.1⟩

lemma foldl_onDisconnect_sublist (l : List ConnId) :
    ∀ st : ServerState,
      (l.foldl onDisconnect st).registry.Sublist st.registry
      ∧ (l.foldl onDisconnect st).subs.Sublist st.subs := by
  induction l with
  | nil => intro st; exact ⟨List.Sublist.refl _, List.Sublist.refl _⟩
  | cons x xs ih =>
    intro st
    refine ⟨((ih (onDisconnect st x)).1).trans ?_,
            ((ih (onDisconnect st x)).2).trans ?_⟩
    · exact List.filter_sublist _
    · exact List.filter_sublist _

lemma foldl_onDisconnect_removes (l : List ConnId) (c : ConnId) :
    ∀ st : ServerState, c ∈ l →
      (∀ conn ∈ (l.foldl onDisconnect st).registry, conn.id ≠ c)
      ∧ (∀ p ∈ (l.foldl onDisconnect st).subs, p.1 ≠ c) := by
  induction l with
  | nil => intro st h; cases h
  | cons x xs ih =>
    intro st hc
    by_cases hcx : c ∈ xs
    · exact ih (onDisconnect st x) hcx
    · have hx : x = c := by
        rcases List.mem_cons.mp hc with h | h
        · exact h.symm
        · exact absurd h hcx
      subst hx
      have hsub := foldl_onDisconnect_sublist xs (onDisconnect st x)
      constructor
      · intro conn hconn
        have hmem := hsub.1.subset hconn
        simp only [onDisconnect, List.mem_filter] at hmem
        simpa using hmem.2
      · intro p hp
        have hmem := hsub.2.subset hp
        simp only [onDisconnect, List.mem_filter] at hmem
        simpa using hmem.2

/-- C5: a failing delivery is isolated — every non-failing recipient
still receives the event, only and exactly the event published, nothing
is delivered to a failing connection, a failing recipient is torn down
via the disconnect path (gone from the registry and from every
subscriber set), and the persistence outcome of `createMessage` is
independent of which deliveries fail (never surfaced, never rolled
back). -/
theorem publish_failure_isolated
    (store : Store) (st : ServerState) (ev : Event) (failing : List ConnId) :
    (∀ c, c ∈ recipientsOf store st ev.chat → c ∉ failing →
        (c, ev) ∈ (publish store st ev failing).2)
    ∧ (∀ c e, (c, e) ∈ (publish store st ev failing).2 →
        c ∉ failing ∧ e = ev)
    ∧ (∀ c, c ∈ recipientsOf store st ev.chat → c ∈ failing →
        (∀ conn ∈ (publish store st ev failing).1.registry, conn.id ≠ c)
        ∧ (∀ p ∈ (publish store st ev failing).1.subs, p.1 ≠ c))
    ∧ (∀ chatId authorId content,
        (createMessage store st failing chatId authorId content).1
          = (createMessage store st [] chatId authorId content).1) := by
  refine ⟨?_, ?_, ?_, ?_⟩
  · intro c hc hnf
    simp only [publish, List.mem_map, List.mem_filter]
    exact ⟨c, ⟨hc, by simpa using hnf⟩, rfl⟩
  · intro c e hmem
    simp only [publish, List.mem_map, List.mem_filter] at hmem
    obtain ⟨cc, ⟨_, hnf⟩, heq⟩ := hmem
    obtain ⟨h1, h2⟩ := Prod.mk.injEq .. ▸ heq
    subst h1
    exact ⟨by simpa using hnf, h2.symm⟩
  · intro c hc hf
    have hcf : c ∈ (recipientsOf store st ev.chat).filter (fun x => x ∈ failing) := by
      simp only [List.mem_filter]
      exact ⟨hc, by simpa using hf⟩
    exact foldl_onDisconnect_removes _ c st hcf
  · intro chatId authorId content
    rcases hps : participantsOf store chatId with _ | ps
    · simp [createMessage, hps]
    · by_cases hauthor : authorId ∈ ps
      · rcases hok : store.storageOk with _ | _
        · simp [createMessage, hps, hauthor, hok]
        · simp [createMessage, hps, hauthor, hok]
      · simp [createMessage, hps, hauthor]

/-- C5 witness: chat 1 has participants 10 and 20 with connections 100
and 200; delivery to 200 fails. Connection 100 still receives the
event, and connection 200 is torn down from the registry and from its
subscriber sets. -/
theorem publish_failure_isolated_witness :
    (100, (⟨1, .messageCreated, "hi", 10⟩ : Event))
      ∈ (publish ⟨[(1, [10, 20])], true⟩ ⟨[⟨100, 10⟩, ⟨200, 20⟩], [(200, 1)]⟩
          ⟨1, .messageCreated, "hi", 10⟩ [200]).2
    ∧ (∀ conn ∈ (publish ⟨[(1, [10, 20])], true⟩
          ⟨[⟨100, 10⟩, ⟨200, 20⟩], [(200, 1)]⟩
          ⟨1, .messageCreated, "hi", 10⟩ [200]).1.registry, conn.id ≠ 200)
    ∧ (∀ p ∈ (publish ⟨[(1, [10, 20])], true⟩
          ⟨[⟨100, 10⟩, ⟨200, 20⟩], [(200, 1)]⟩
          ⟨1, .messageCreated, "hi", 10⟩ [200]).1.subs, p.1 ≠ 200) := by
  have h := publish_failure_isolated ⟨[(1, [10, 20])], true⟩
    ⟨[⟨100, 10⟩, ⟨200, 20⟩], [(200, 1)]⟩ ⟨1, .messageCreated, "hi", 10⟩ [200]
  have h3 := h.2.2.1 200 (by decide) (by decide)
  exact ⟨h.1 100 (by decide) (by decide), h3.1, h3.2⟩

lemma publish_nil_failing (store : Store) (st : ServerState) (ev : Event) :
    publish store st ev []
      = (st, (recipientsOf store st ev.chat).map (fun c => (c, ev))) := by
  simp [publish]

lemma publishStep_eq (store : Store) (st : ServerState)
    (ds : List (ConnId × Event)) (ev : Event) :
    publishStep store (st, ds) ev
      = (st, ds ++ (recipientsOf store st ev.chat).map (fun c => (c, ev))) := by
  simp [publishStep, publish_nil_failing]

lemma foldl_publishStep (store : Store) (st : ServerState) :
    ∀ (evs : List Event) (ds : List (ConnId × Event)),
      evs.foldl (publishStep store) (st, ds)
        = (st, ds ++ evs.flatMap
            (fun ev => (recipientsOf store st ev.chat).map (fun c => (c, ev)))) := by
  intro evs
  induction evs with
  | nil => intro ds; simp
  | cons e es ih =>
    intro ds
    rw [List.foldl_cons, publishStep_eq, ih]
    simp

lemma publishSeq_eq (store : Store) (st : ServerState) (evs : List Event) :
    publishSeq store st evs
      = (st, evs.flatMap
          (fun ev => (recipientsOf store st ev.chat).map (fun c => (c, ev)))) := by
  simpa [publishSeq] using foldl_publishStep store st evs []

lemma inbox_append (a b : List (ConnId × Event)) (x : ConnId) :
    inbox (a ++ b) x = inbox a x ++ inbox b x := by
  simp [inbox, List.filter_append]

lemma inbox_block (recips : List ConnId) (ev : Event) (x : ConnId) :
    inbox (recips.map (fun c => (c, ev))) x
      = List.replicate (recips.count x) ev := by
  induction recips with
  | nil => rfl
  | cons r rs ih =>
    by_cases h : r = x
    · subst h
      simp [inbox, List.count_cons, List.replicate_succ] at ih ⊢
      exact ih
    · have hx : ¬x = r := fun hh => h hh.symm
      simp [inbox, List.count_cons, h, hx] at ih ⊢
      exact ih

/-- C6: for a single chat, a sequence of publish calls delivers to every
recipient connection exactly the published events, in the order the
publish calls were made (a connection of a participant receives the full
sequence in call order; a connection of a non-participant receives
nothing). -/
theorem publish_preserves_order_per_chat
    (store : Store) (st : ServerState) (ch : ChatId) (evs : List Event)
    (ps : List UserId)
    (hps : participantsOf store ch = some ps)
    (hnodupPs : ps.Nodup) (hreg : (st.registry.map Conn.id).Nodup)
    (hch : ∀ ev ∈ evs, ev.chat = ch) :
    ∀ conn, conn ∈ st.registry →
      inbox (publishSeq store st evs).2 conn.id
        = if conn.user ∈ ps then evs else [] := by
  intro conn hconn
  rw [publishSeq_eq]
  revert hch
  induction evs with
  | nil =>
    intro _
    simp only [List.flatMap_nil]
    rw [ite_self]
    simp [inbox]
  | cons e es ih =>
    intro hch
    have hech : e.chat = ch := hch e (List.mem_cons_self e es)
    have hrest : ∀ ev ∈ es, ev.chat = ch :=
      fun ev h => hch ev (List.mem_cons_of_mem e h)
    rw [List.flatMap_cons, inbox_append, inbox_block, hech,
      count_recipientsOf hps hnodupPs hreg hconn, ih hrest]
    by_cases hm : conn.user ∈ ps
    · simp [hm]
    · simp [hm]

/-- C6 witness: two events published in order on chat 1 arrive at the
participant's connection 100 in that order, and a non-participant's
connection 300 receives nothing. -/
theorem publish_preserves_order_per_chat_witness :
    inbox (publishSeq ⟨[(1, [10])], true⟩ ⟨[⟨100, 10⟩, ⟨300, 30⟩], []⟩
        [⟨1, .messageCreated, "a", 10⟩, ⟨1, .messageCreated, "b", 10⟩]).2 100
      = [⟨1, .messageCreated, "a", 10⟩, ⟨1, .messageCreated, "b", 10⟩]
    ∧ inbox (publishSeq ⟨[(1, [10])], true⟩ ⟨[⟨100, 10⟩, ⟨300, 30⟩], []⟩
        [⟨1, .messageCreated, "a", 10⟩, ⟨1, .messageCreated, "b", 10⟩]).2 300
      = [] := by
  have h := publish_preserves_order_per_chat ⟨[(1, [10])], true⟩
    ⟨[⟨100, 10⟩, ⟨300, 30⟩], []⟩ 1
    [⟨1, .messageCreated, "a", 10⟩, ⟨1, .messageCreated, "b", 10⟩]
    [10] rfl (by decide) (by decide) (by decide)
  constructor
  · have := h ⟨100, 10⟩ (by decide)
    simpa using this
  · have := h ⟨300, 30⟩ (by decide)
    simpa using this

lemma applyJL_registry (store : Store) (connId : ConnId) (chatId : ChatId)
    (st : ServerState) (op : JL) :
    (applyJL store connId chatId st op).registry = st.registry := by
  cases op with
  | leave => rfl
  | join =>
    simp only [applyJL]
    rcases hj : onJoinChat store st connId chatId with e | s
    · rfl
    · simp only []
      unfold onJoinChat at hj
      rcases hfind : st.registry.find? (fun c => c.id = connId) with _ | c
      · rw [hfind] at hj
        simp at hj
      · rw [hfind] at hj
        rcases hps2 : participantsOf store chatId with _ | ps2
        · rw [hps2] at hj
          simp at hj
        · rw [hps2] at hj
          by_cases hm : c.user ∈ ps2
          · simp only [hm, if_true, Except.ok.injEq] at hj
            rw [← hj]
          · simp [hm] at hj

lemma applyJL_mem_iff (store : Store) (st : ServerState) (connId : ConnId)
    (chatId : ChatId) (conn : Conn) (ps : List UserId)
    (hconn : st.registry.find? (fun c => c.id = connId) = some conn)
    (hps : participantsOf store chatId = some ps)
    (hmem : conn.user ∈ ps) (op : JL) :
    ((connId, chatId) ∈ (applyJL store connId chatId st op).subs ↔ op = .join) := by
  cases op with
  | join =>
    have hj : onJoinChat store st connId chatId
        = .ok { st with subs :=
            if (connId, chatId) ∈ st.subs then st.subs
            else st.subs ++ [(connId, chatId)] } := by
      simp [onJoinChat, hconn, hps, hmem]
    simp only [applyJL, hj]
    by_cases hin : (connId, chatId) ∈ st.subs
    · simp [hin]
    · simp [hin]
  | leave =>
    simp [applyJL, onLeaveChat, List.mem_filter]

lemma applyJL_count_le (store : Store) (st : ServerState) (connId : ConnId)
    (chatId : ChatId) (op : JL)
    (hc : st.subs.count (connId, chatId) ≤ 1) :
    (applyJL store connId chatId st op).subs.count (connId, chatId) ≤ 1 := by
  cases op with
  | leave =>
    simp only [applyJL, onLeaveChat]
    have hnot : (connId, chatId) ∉ st.subs.filter (fun p => p ≠ (connId, chatId)) := by
      intro h
      have := (List.mem_filter.mp h).2
      simp at this
    rw [List.count_eq_zero_of_not_mem hnot]
    exact Nat.zero_le 1
  | join =>
    simp only [applyJL]
    rcases hj : onJoinChat store st connId chatId with e | s
    · exact hc
    · simp only []
      unfold onJoinChat at hj
      rcases hfind : st.registry.find? (fun c => c.id = connId) with _ | c
      · rw [hfind] at hj
        simp at hj
      · rw [hfind] at hj
        rcases hps2 : participantsOf store chatId with _ | ps2
        · rw [hps2] at hj
          simp at hj
        · rw [hps2] at hj
          by_cases hm : c.user ∈ ps2
          · simp only [hm, if_true, Except.ok.injEq] at hj
            rw [← hj]
            by_cases hin : (connId, chatId) ∈ st.subs
            · simpa [hin] using hc
            · simp only [hin, if_false]
              rw [List.count_append, List.count_eq_zero_of_not_mem hin]
              simp
          · simp [hm] at hj

lemma runJL_last (store : Store) (connId : ConnId) (chatId : ChatId)
    (ps : List UserId) (hps : participantsOf store chatId = some ps) :
    ∀ (ops : List JL) (st : ServerState) (conn : Conn),
      st.registry.find? (fun c => c.id = connId) = some conn →
      conn.user ∈ ps →
      st.subs.count (connId, chatId) ≤ 1 →
      ∀ op, ops.getLast? = some op →
        (((connId, chatId) ∈ (runJL store connId chatId st ops).subs) ↔ op = .join)
        ∧ (runJL store connId chatId st ops).subs.count (connId, chatId) ≤ 1 := by
  intro ops
  induction ops with
  | nil =>
    intro st conn _ _ _ op h
    simp at h
  | cons a rest ih =>
    intro st conn hconn hmem hcount op hlast
    rcases rest with _ | ⟨b, rest2⟩
    · have hop : op = a := by
        simp only [List.getLast?_singleton, Option.some.injEq] at hlast
        exact hlast.symm
      subst hop
      constructor
      · simpa [runJL] using
          applyJL_mem_iff store st connId chatId conn ps hconn hps hmem op
      · simpa [runJL] using
          applyJL_count_le store st connId chatId op hcount
    · have hlast2 : (b :: rest2).getLast? = some op := by
        rw [List.getLast?_cons_cons] at hlast
        exact hlast
      have hconn2 : (applyJL store connId chatId st a).registry.find?
          (fun c => c.id = connId) = some conn := by
        rw [applyJL_registry]
        exact hconn
      have hcount2 := applyJL_count_le store st connId chatId a hcount
      have hres := ih (applyJL store connId chatId st a) conn hconn2 hmem
        hcount2 op hlast2
      simpa [runJL] using hres

/-- C7: for any finite sequence of join/leave calls on one
(connection, chat) pair whose owning user is a participant, the pair's
final subscription status is determined by the last call alone
(subscribed exactly when it is a join, matching what that single call
would produce), and no duplicate subscriptions accumulate. -/
theorem joinLeave_last_call_wins
    (store : Store) (st : ServerState) (connId : ConnId) (chatId : ChatId)
    (conn : Conn) (ps : List UserId) (ops : List JL) (op : JL)
    (hconn : st.registry.find? (fun c => c.id = connId) = some conn)
    (hps : participantsOf store chatId = some ps)
    (hmem : conn.user ∈ ps)
    (hcount : st.subs.count (connId, chatId) ≤ 1)
    (hlast : ops.getLast? = some op) :
    (((connId, chatId) ∈ (runJL store connId chatId st ops).subs) ↔ op = .join)
    ∧ (((connId, chatId) ∈ (applyJL store connId chatId st op).subs) ↔ op = .join)
    ∧ (runJL store connId chatId st ops).subs.count (connId, chatId) ≤ 1 := by
  obtain ⟨h1, h3⟩ := runJL_last store connId chatId ps hps ops st conn hconn
    hmem hcount op hlast
  exact ⟨h1, applyJL_mem_iff store st connId chatId conn ps hconn hps hmem op, h3⟩

/-- C7 witness: on the pair (connection 100, chat 1) with participant
user 10, the sequence join, leave, join, join ends subscribed with no
duplicate subscription, exactly as a single final join would. -/
theorem joinLeave_last_call_wins_witness :
    ((100, 1) ∈ (runJL ⟨[(1, [10])], true⟩ 100 1 ⟨[⟨100, 10⟩], []⟩
        [JL.join, JL.leave, JL.join, JL.join]).subs)
    ∧ (runJL ⟨[(1, [10])], true⟩ 100 1 ⟨[⟨100, 10⟩], []⟩
        [JL.join, JL.leave, JL.join, JL.join]).subs.count (100, 1) ≤ 1 := by
  have h := joinLeave_last_call_wins ⟨[(1, [10])], true⟩ ⟨[⟨100, 10⟩], []⟩
    100 1 ⟨100, 10⟩ [10] [JL.join, JL.leave, JL.join, JL.join] JL.join
    rfl rfl (by decide) (by decide) rfl
  exact ⟨h.1.mpr rfl, h.2.2⟩

end TalkNet
